import Mathlib

/-!
Shallow embedding of the `vacancy_scaper` repository (resume aggregation
pipeline: two source adapters, a completeness scorer, a fuzzy vocabulary
matcher and a ranking caller), together with theorems checking the
natural-language specification against the code.

Conventions used throughout:
* Python `dict` values that a claim distinguishes by key presence are
  modelled as association lists `List (String × PyVal)`; fixed-shape dicts
  are modelled as structures.
* Python exceptions (`KeyError`, `IndexError`, `TypeError`, HTTP errors)
  are modelled with `Except String`; a raised exception is `.error`.
* External library functions (nltk tokenization, rapidfuzz scoring, HTTP
  fetching) are parameters of the embedded functions: the embedding is
  faithful to how the repository combines their results.
* Machine floats of CPython appear only in `round((m / t) * 100)` and
  `math.ceil(n / 14)`; both are modelled by exact rational arithmetic
  (Python `round` is round-half-to-even).
-/

namespace VacancyScraper

/-! ### models/Resume.py -/

/-- Embeds `models.Experience` (pydantic): all three fields `Optional[str]`. -/
structure Experience where
  position : Option String
  duration : Option String
  details : Option String
deriving Repr, DecidableEq

/-- Embeds `models.Resume` (pydantic): `href : str` required,
`salary_expectation : Optional[str]`, `experience : Optional[list[Experience]]`,
`filling_percentage : int` required (no range constraint in the model). -/
structure Resume where
  href : String
  salary_expectation : Option String
  experience : Option (List Experience)
  filling_percentage : ℤ
deriving Repr, DecidableEq

/-- Embeds `Resume.__lt__`: comparison solely by `filling_percentage`. -/
def Resume.pyLt (a b : Resume) : Bool :=
  a.filling_percentage < b.filling_percentage

/-- The comparison under which Python's stable `list.sort(reverse=True)`
orders resumes: `a` may stay before `b` iff `b.filling_percentage ≤
a.filling_percentage` (descending, ties keep original order). -/
def descLe (a b : Resume) : Bool :=
  b.filling_percentage ≤ a.filling_percentage

/-! ### models/SearchOptions.py -/

/-- Embeds `models.SearchOptions` (pydantic). -/
structure SearchOptions where
  search : String
  region : Option String
  salary_from : Option ℤ
  salary_to : Option ℤ
  experience : Option (List String)
deriving Repr, DecidableEq

/-- Python truthiness of an `Optional[str]`: `None` and `""` are falsy. -/
def optStrTruthy : Option String → Bool
  | none => false
  | some s => !s.isEmpty

/-- Python truthiness of an `Optional[int]`: `None` and `0` are falsy. -/
def optIntTruthy : Option ℤ → Bool
  | none => false
  | some n => n != 0

/-- Python truthiness of an `Optional[list]`: `None` and `[]` are falsy. -/
def optListTruthy : Option (List String) → Bool
  | none => false
  | some l => !l.isEmpty

/-- A Python dict value as it occurs in the adapters' request payloads:
`None`, a string, or an integer. -/
inductive PyVal where
  | none
  | str (s : String)
  | int (n : ℤ)
deriving Repr, DecidableEq

/-! ### Executable models of the CPython string operations used by the code
(the core Lean string functions do not reduce in the kernel, so the
operations are implemented structurally over `List Char`). -/

/-- Python `str.strip()`: drop whitespace from both ends. -/
def pyStrip (s : String) : String :=
  ⟨((s.data.dropWhile Char.isWhitespace).reverse.dropWhile Char.isWhitespace).reverse⟩

/-- Replace every occurrence of the character `old` by `new`; models the
Python single-character `str.replace` calls on `"\xa0"`. -/
def charReplace (old new : Char) (s : String) : String :=
  ⟨s.data.map (fun c => if c = old then new else c)⟩

/-- Does `pat` occur as a contiguous sublist of `l`?  Models Python's
substring test `pat in s`. -/
def containsSub (pat : List Char) : List Char → Bool
  | [] => pat.isEmpty
  | c :: cs => pat.isPrefixOf (c :: cs) || containsSub pat cs

/-- The suffix of `l` after the last occurrence of the (non-overlapping)
pattern `pat`, or `none` when `pat` does not occur.  Models Python's
`s.split(pat)[-1]` for the marker pattern used by the code (which has no
self-overlap, so last-occurrence and last-split-part coincide). -/
def afterLast (pat : List Char) : List Char → Option (List Char)
  | [] => if pat.isEmpty then some [] else Option.none
  | c :: cs =>
    match afterLast pat cs with
    | some suf => some suf
    | Option.none =>
      if pat.isPrefixOf (c :: cs) then some ((c :: cs).drop pat.length) else Option.none

/-- First whitespace-separated token of `l`, or `none` when there is none;
models Python's `s.split()[0]`, whose `[0]` raises `IndexError` exactly in
the `none` case. -/
def firstToken (l : List Char) : Option (List Char) :=
  let rest := l.dropWhile Char.isWhitespace
  if rest.isEmpty then Option.none
  else some (rest.takeWhile (fun c => !c.isWhitespace))

/-- Fuel-indexed helper for substring removal (fuel bounds the scan length,
keeping the definition structural). -/
def removeSubAux (pat : List Char) : ℕ → List Char → List Char
  | 0, l => l
  | _ + 1, [] => []
  | n + 1, c :: cs =>
    if pat.isPrefixOf (c :: cs) then removeSubAux pat n ((c :: cs).drop pat.length)
    else c :: removeSubAux pat n cs

/-- Python `s.replace(pat, "")`: remove every non-overlapping occurrence of
`pat` scanning left to right; with an empty `pat` Python returns `s`
unchanged. -/
def pyRemove (s pat : String) : String :=
  if pat.isEmpty then s else ⟨removeSubAux pat.data s.data.length s.data⟩

/-- Python dict lookup `d[k]`, which raises `KeyError` when the key is
absent. -/
def dictGet (d : List (String × α)) (k : String) : Except String α :=
  match d.lookup k with
  | some v => .ok v
  | Option.none => .error ("KeyError: " ++ k)

/-- Reading a key of a parsed JSON object: `none` models an absent (or
null) member, whose direct access raises. -/
def jsonGet (v : Option α) (k : String) : Except String α :=
  match v with
  | some x => .ok x
  | Option.none => .error ("KeyError: " ++ k)

/-! ### utils/nlp.py and its rapidfuzz collaborator -/

/-- Model of `rapidfuzz.process.extractOne(word, vocabulary, scorer=...)`
for a fixed query: scans the vocabulary and returns the entry with the
highest score together with that score, preferring the earliest entry on
ties, and `none` on an empty vocabulary.  `score v` stands for
`fuzz.token_sort_ratio(word, v)`. -/
def extractOne (score : String → ℚ) : List String → Option (String × ℚ)
  | [] => Option.none
  | v :: vs =>
    match extractOne score vs with
    | Option.none => some (v, score v)
    | some (b, s) => if score v ≥ s then some (v, score v) else some (b, s)

/-- Embeds `utils.nlp.get_most_similar_word`: the best `extractOne` match is
returned only when its score strictly exceeds the integer threshold
(`WORD_SIMILARITY_THRESHOLD`); otherwise the function falls through and
returns `None`.  `sim` stands for `fuzz.token_sort_ratio`; a `None` query
(rapidfuzz yields no match for it) gives `none`. -/
def get_most_similar_word (sim : String → String → ℚ) (threshold : ℤ)
    (word : Option String) (vocabulary : List String) : Option String :=
  match word with
  | Option.none => Option.none
  | some w =>
    match extractOne (sim w) vocabulary with
    | Option.none => Option.none
    | some (b, s) => if (threshold : ℚ) < s then some b else Option.none

/-! ### Completeness scorer (work_ua_parser.parse_resume, lines 372-388) -/

/-- Python `str.isalnum()`: non-empty and every character alphanumeric. -/
def pyIsalnum (w : String) : Bool :=
  !w.isEmpty && w.data.all Char.isAlphanum

/-- The `meaningful_words` list of `parse_resume`: alphanumeric tokens that
are not stop words.  `tokens` stands for `word_tokenize(all_text.lower())`
and `stopWords` for `stopwords.words("english")` (both produced by nltk). -/
def meaningfulWords (stopWords tokens : List String) : List String :=
  tokens.filter (fun w => pyIsalnum w && !stopWords.contains w)

/-- Round-half-to-even of the exact fraction `a / b` (Python `round` on the
exact quotient), computed with integer arithmetic. -/
def natRoundHalfEven (a b : ℕ) : ℕ :=
  let q := a / b
  let r := a % b
  if 2 * r < b then q
  else if b < 2 * r then q + 1
  else if q % 2 = 0 then q else q + 1

/-- Embeds the score computation of `parse_resume`:
`round((meaningful_words_count / total_words) * 100)` with result `0` when
`total_words` is `0` (exact rational value of the Python float formula). -/
def fillingPercentage (stopWords tokens : List String) : ℤ :=
  if tokens.length = 0 then 0
  else (natRoundHalfEven (100 * (meaningfulWords stopWords tokens).length) tokens.length : ℤ)

/-- Python's `round` on an exact rational: round half to even. -/
def pyRound (q : ℚ) : ℤ :=
  if Int.fract q < 1 / 2 then ⌊q⌋
  else if 1 / 2 < Int.fract q then ⌊q⌋ + 1
  else if 2 ∣ ⌊q⌋ then ⌊q⌋ else ⌊q⌋ + 1

/-! ### parsers/work_ua_parser.py -/

namespace WorkUa

/-- Structural content of the `p.mb-0` details tag following a position
heading on a work.ua detail page: the text of its `span.text-default-7`
duration child (when present) and the tag's whole visible text retrieved by
`get_text(separator=" ", strip=True)`. -/
structure DetailsTag where
  durationSpan : Option String
  detailsText : String
deriving Repr, DecidableEq

/-- One `h2.h4` sibling of the "Work experience" heading on a detail page:
the heading's text plus its optional details tag (`find_next_sibling("p",
class_="mb-0")` can find nothing). -/
structure PositionBlock where
  position : String
  detailsTag : Option DetailsTag
deriving Repr, DecidableEq

/-- Landmark-level model of a fetched work.ua resume detail page as seen by
`WorkUaParser.parse_resume` through BeautifulSoup: the content of the
`meta[name=Description]` tag (when found), the `h2.h4` blocks following the
"Work experience" heading (`none` when the heading is absent), and
`word_tokenize(soup.get_text(separator=" ", strip=True).lower())` — the
nltk tokens of the page's lowercased visible text. -/
structure ResumeDoc where
  descriptionMeta : Option String
  workExperience : Option (List PositionBlock)
  tokens : List String
deriving Repr, DecidableEq

/-- One entry of the `resume["experience"]` list built by `parse_resume`. -/
structure ExperienceJson where
  position : String
  duration : Option String
  details : String
deriving Repr, DecidableEq

/-- The dict returned by `parse_resume`.  Its keys are statically known, so
it is modelled as a structure; `salary_space_expectation` stands for the
separate dict key `"salary expectation"` (with a space — distinct from the
`"salary_expectation"` key initialized to `""`), which the salary branch
writes. -/
structure ParsedResume where
  salary_expectation : String
  salary_space_expectation : Option String
  experience : List ExperienceJson
  filling_percentage : ℤ
deriving Repr, DecidableEq

/-- Embeds `WorkUaParser.format_experience_detail`:
`experience.strip().replace("\xa0", " ")`. -/
def format_experience_detail (experience : String) : String :=
  charReplace '\u00A0' ' ' (pyStrip experience)

/-- The literal marker `"salary starting at"` searched in the description
meta content. -/
def salaryMarker : List Char :=
  "salary starting at".data

/-- The salary branch of `parse_resume`: when the marker occurs in the meta
content, take the text after it, then its first whitespace token
(`split()[0]`, an `IndexError` — modelled as `.error` — when there is no
token), then `strip()`.  Returns `none` when the meta tag is absent or the
marker does not occur. -/
def extractSalary (descriptionMeta : Option String) : Except String (Option String) :=
  match descriptionMeta with
  | Option.none => .ok Option.none
  | some content =>
    match afterLast salaryMarker content.data with
    | Option.none => .ok Option.none
    | some salaryPart =>
      match firstToken salaryPart with
      | Option.none => .error "IndexError: list index out of range"
      | some tok => .ok (some (pyStrip ⟨tok⟩))

/-- The work-experience loop of `parse_resume`: for every position heading,
an entry is appended only when the details tag exists; the duration is the
formatted span text (or `None`), and the details are the tag text with the
formatted duration removed and formatted. -/
def parseExperience : Option (List PositionBlock) → List ExperienceJson
  | Option.none => []
  | some blocks =>
    blocks.filterMap fun block =>
      match block.detailsTag with
      | Option.none => Option.none
      | some dt =>
        let duration := dt.durationSpan.map format_experience_detail
        let details :=
          format_experience_detail (pyRemove dt.detailsText (duration.getD ""))
        some ⟨pyStrip block.position, duration, details⟩

/-- Embeds `WorkUaParser.parse_resume` (lines 316-390): salary extraction
into the typo'd `"salary expectation"` key, the work-experience loop, and
the completeness score over the page tokens.  `stopWords` stands for
`stopwords.words("english")`. -/
def parse_resume (stopWords : List String) (doc : ResumeDoc) :
    Except String ParsedResume := do
  let salary ← extractSalary doc.descriptionMeta
  pure
    { salary_expectation := ""
      salary_space_expectation := salary
      experience := parseExperience doc.workExperience
      filling_percentage := fillingPercentage stopWords doc.tokens }

/-- The pydantic construction `models.Resume(**{"href": ..., **resume})` at
the end of `WorkUaParser.search_resumes`: the extra `"salary expectation"`
kwarg does not match any model field and is ignored (pydantic default), so
only the `"salary_expectation"` key — always `""` — reaches the model. -/
def resumeFromParsed (href : String) (p : ParsedResume) : Resume :=
  { href := href
    salary_expectation := some p.salary_expectation
    experience := some (p.experience.map fun e =>
      { position := some e.position, duration := e.duration, details := some e.details })
    filling_percentage := p.filling_percentage }

/-- Page count computed by `get_resume_pages`:
`math.ceil(total_candidates / 14)` as exact integer arithmetic. -/
def totalPages (totalCandidates : ℕ) : ℕ :=
  (totalCandidates + 13) / 14

/-- Python `range(a, b, step)` for a positive step. -/
def pyRange (a b step : ℕ) : List ℕ :=
  List.range' a ((b - a + step - 1) / step) step

/-- The sequence of page numbers `get_resume_pages` requests (lines
212-257): page 1 first, then `range(2, total_pages + 1, 2)`, then
`range(3, total_pages + 1, 2)`. -/
def fetchedPages (totalCandidates : ℕ) : List ℕ :=
  1 :: (pyRange 2 (totalPages totalCandidates + 1) 2 ++
    pyRange 3 (totalPages totalCandidates + 1) 2)

/-- Embeds `WorkUaParser.search_resumes` (lines 392-444) from the listing
pages on: `pages` holds the href lists that `get_resume_href_from_html`
extracts per listing page, `fetch` the outcome of
`get_resume_html_from_href` for each href (`none` models a failed fetch,
whereupon the code drops the page), and `base` the `base_url`.  The parsed
resumes are paired positionally with `hrefs[i - 1]` — the i-th href of the
full list, not the href of the i-th successfully fetched page.  A parse
error propagates (the loop has no handler around `parse_resume`). -/
def search_resumes (base : String) (stopWords : List String)
    (fetch : String → Option ResumeDoc) (pages : List (List String)) :
    Except String (List Resume) :=
  let hrefs := pages.flatten
  let resumeDocs := hrefs.filterMap fetch
  (resumeDocs.zip hrefs).mapM fun dh => do
    let p ← parse_resume stopWords dh.1
    pure (resumeFromParsed (base ++ dh.2) p)

/-- Embeds `WorkUaParser.__unpack_search_options` (lines 179-201).  The
payload dict is an association list in insertion order; `REGIONS`,
`SALARY_FROM_OPTIONS`, `SALARY_TO_OPTIONS` and `EXPERIENCE_OPTIONS` are the
adapter's vocabulary dicts, `sim`/`threshold` parameterize the fuzzy
matcher.  When the matcher resolves no region, the code stores
`None` under the `"region"` key (`payload["region"] = ... if region else
None`); salary and experience options are plain dict lookups that raise
`KeyError` on unknown keys. -/
def unpack_search_options (REGIONS : List (String × ℤ))
    (SALARY_FROM_OPTIONS SALARY_TO_OPTIONS : List (String × ℤ))
    (EXPERIENCE_OPTIONS : List (String × String))
    (sim : String → String → ℚ) (threshold : ℤ) (params : SearchOptions) :
    Except String (List (String × PyVal)) := do
  let payload := [("search", PyVal.str params.search)]
  let payload ←
    if optStrTruthy params.region then do
      let region := get_most_similar_word sim threshold params.region
        (REGIONS.map Prod.fst)
      match region with
      | some reg => do
        let rid ← dictGet REGIONS reg
        pure (payload ++ [("region", PyVal.int rid)])
      | Option.none => pure (payload ++ [("region", PyVal.none)])
    else pure payload
  let payload ←
    if optIntTruthy params.salary_from then do
      let v ← dictGet SALARY_FROM_OPTIONS (toString ((params.salary_from).getD 0))
      pure (payload ++ [("salaryfrom", PyVal.int v)])
    else pure payload
  let payload ←
    if optIntTruthy params.salary_to then do
      let v ← dictGet SALARY_TO_OPTIONS (toString ((params.salary_to).getD 0))
      pure (payload ++ [("salaryto", PyVal.int v)])
    else pure payload
  let payload ←
    if optListTruthy params.experience then do
      let ids ← ((params.experience).getD []).mapM (dictGet EXPERIENCE_OPTIONS)
      pure (payload ++ [("experience", PyVal.str (String.intercalate "+" ids))])
    else pure payload
  pure payload

end WorkUa

/-! ### parsers/robota_ua_parser.py -/

namespace RobotaUa

/-- The class attribute `RobotaUaParser.base_url`. -/
def base_url : String := "https://robota.ua"

/-- One entry of the `"experience"` array of a structured robota.ua API
resume; `none` models an absent member, whose `exp["..."]` access raises. -/
structure ApiExperience where
  position : Option String
  datesDiff : Option String
  company : Option String
deriving Repr, DecidableEq

/-- A structured resume object of the robota.ua API response as read by
`unpack_resume_from_response`; `none` models an absent member. -/
structure ApiResume where
  resumeId : Option String
  salary : Option String
  experience : Option (List ApiExperience)
  fillingPercentage : Option ℤ
deriving Repr, DecidableEq

/-- Embeds `RobotaUaParser.format_salary_expectation`:
`salary.strip().replace("\xa0", " ")`. -/
def format_salary_expectation (salary : String) : String :=
  charReplace '\u00A0' ' ' (pyStrip salary)

/-- The list comprehension over `resume["experience"]` inside
`unpack_resume_from_response`: each sub-field is a direct subscript,
raising `KeyError` when absent. -/
def unpackExperienceEntry (e : ApiExperience) : Except String Experience := do
  let p ← jsonGet e.position "position"
  let d ← jsonGet e.datesDiff "datesDiff"
  let c ← jsonGet e.company "company"
  pure { position := some p, duration := some d, details := some c }

/-- Embeds `RobotaUaParser.unpack_resume_from_response` (lines 133-160):
every field is a direct subscript into the response object, so any absent
member raises `KeyError`; `fillingPercentage` is passed through without
validation.  The resulting kwargs dict is turned into the pydantic `Resume`
with the same field names. -/
def unpack_resume_from_response (r : ApiResume) : Except String Resume := do
  let rid ← jsonGet r.resumeId "resumeId"
  let salary ← jsonGet r.salary "salary"
  let exps ← jsonGet r.experience "experience"
  let entries ← exps.mapM unpackExperienceEntry
  let fp ← jsonGet r.fillingPercentage "fillingPercentage"
  pure
    { href := base_url ++ "/candidates/" ++ rid
      salary_expectation := some (format_salary_expectation salary)
      experience := some entries
      filling_percentage := fp }

/-- The search payload built by `RobotaUaParser.__unpack_search_options`
(lines 162-195): the `"cityId"` key is always present (holding `None` when
the fuzzy matcher resolves nothing), the salary bounds are nested under
`"salary"`, and `experienceIds` collects the resolved experience ids. -/
structure Payload where
  cityId : Option ℤ
  keyWords : String
  salary_from : Option ℤ
  salary_to : Option ℤ
  experienceIds : List ℤ
deriving Repr, DecidableEq

/-- Embeds `RobotaUaParser.__unpack_search_options`.  `REGIONS` and
`EXPERIENCE_OPTIONS` are the adapter's vocabulary dicts (robota.ua ids are
integers, falsy when `0`).  `params.experience` is iterated directly, so a
`None` value raises `TypeError`; experience tags are resolved with
`.get(...)` and kept only when truthy; the `"More than 5 years"` branch
subscripts two fixed labels, raising `KeyError` when they are absent. -/
def unpack_search_options (REGIONS : List (String × ℤ))
    (EXPERIENCE_OPTIONS : List (String × ℤ))
    (sim : String → String → ℚ) (threshold : ℤ) (params : SearchOptions) :
    Except String Payload := do
  let region_name := get_most_similar_word sim threshold params.region
    (REGIONS.map Prod.fst)
  let region_id ←
    match region_name with
    | some reg => do
      let rid ← dictGet REGIONS reg
      pure (some rid)
    | Option.none => pure Option.none
  let exps ←
    match params.experience with
    | some l => pure l
    | Option.none => .error "TypeError: argument of type NoneType is not iterable"
  let ids := exps.filterMap fun exp =>
    match EXPERIENCE_OPTIONS.lookup exp with
    | some v => if v != 0 then some v else Option.none
    | Option.none => Option.none
  let ids ←
    if exps.contains "More than 5 years" then do
      let a ← dictGet EXPERIENCE_OPTIONS "5 to 10 years"
      let b ← dictGet EXPERIENCE_OPTIONS "More than 10 years"
      pure (ids ++ [a, b])
    else pure ids
  pure
    { cityId := region_id
      keyWords := params.search
      salary_from := params.salary_from
      salary_to := params.salary_to
      experienceIds := ids }

end RobotaUa

/-! ### telegram_bot/telegram_resume_bot.py — the ranking caller -/

/-- The aggregation performed by `TelegramResumeBot.search_resumes` (lines
380-382), generalized to the spec's `rank(sources, top_n)` shape:
concatenate the per-source lists, sort with Python's stable
`list.sort(reverse=True)` under `Resume.__lt__` (a stable descending sort
by `filling_percentage`, modelled by `List.mergeSort` with `descLe`), and
slice the first `top_n` records. -/
def rank (sources : List (List Resume)) (top_n : ℕ) : List Resume :=
  ((sources.flatten).mergeSort descLe).take top_n

/-- Embeds the adapter orchestration of `TelegramResumeBot.search_resumes`
(lines 377-388): the work.ua adapter is called first, then the robota.ua
adapter — with no exception handler around either call, so a raising
adapter propagates (`Except` bind) — and only then are the two result
lists combined, sorted and sliced to the top 5. -/
def caller_search_resumes (workUaResults robotaUaResults : Except String (List Resume)) :
    Except String (List Resume) := do
  let w ← workUaResults
  let r ← robotaUaResults
  pure (rank [w, r] 5)

/-! ## Helper lemmas -/

theorem extractOne_eq_none {f : String → ℚ} {l : List String} :
    extractOne f l = Option.none ↔ l = [] := by
  cases l with
  | nil => simp [extractOne]
  | cons v vs =>
    simp only [extractOne]
    cases h : extractOne f vs with
    | none => simp
    | some p =>
      obtain ⟨b, s⟩ := p
      by_cases hc : f v ≥ s <;> simp [hc]

theorem extractOne_sound {f : String → ℚ} :
    ∀ {l : List String} {b : String} {s : ℚ}, extractOne f l = some (b, s) →
      s = f b ∧ b ∈ l ∧ ∀ c ∈ l, f c ≤ s := by
  intro l
  induction l with
  | nil => intro b s h; simp [extractOne] at h
  | cons v vs ih =>
    intro b s h
    simp only [extractOne] at h
    cases hvs : extractOne f vs with
    | none =>
      rw [hvs] at h
      simp only [Option.some.injEq, Prod.mk.injEq] at h
      obtain ⟨hb, hs⟩ := h
      subst hb; subst hs
      have hemp : vs = [] := extractOne_eq_none.mp hvs
      subst hemp
      exact ⟨rfl, by simp, by simp⟩
    | some p =>
      obtain ⟨b0, s0⟩ := p
      rw [hvs] at h
      obtain ⟨hs0, hb0mem, hall⟩ := ih hvs
      by_cases hc : f v ≥ s0
      · simp only [if_pos hc, Option.some.injEq, Prod.mk.injEq] at h
        obtain ⟨hb, hs⟩ := h
        subst hb; subst hs
        refine ⟨rfl, by simp, ?_⟩
        intro c hcmem
        rcases List.mem_cons.mp hcmem with hcv | hcvs
        · subst hcv; exact le_rfl
        · exact (hall c hcvs).trans hc
      · simp only [if_neg hc, Option.some.injEq, Prod.mk.injEq] at h
        obtain ⟨hb, hs⟩ := h
        subst hb; subst hs
        refine ⟨hs0, List.mem_cons_of_mem v hb0mem, ?_⟩
        intro c hcmem
        rcases List.mem_cons.mp hcmem with hcv | hcvs
        · subst hcv; exact le_of_not_le hc
        · exact hall c hcvs

/-! ## C3 — fuzzy vocabulary matcher -/

/-- C3: the fuzzy matcher returns the vocabulary entry with the highest
similarity to the term precisely when that score strictly exceeds the
threshold; at or below the threshold, and for an empty vocabulary, it
returns `none`. -/
theorem get_most_similar_word_spec (sim : String → String → ℚ) (threshold : ℤ)
    (w : String) (vocabulary : List String) :
    (∀ b, get_most_similar_word sim threshold (some w) vocabulary = some b →
        b ∈ vocabulary ∧ (threshold : ℚ) < sim w b ∧
          ∀ c ∈ vocabulary, sim w c ≤ sim w b) ∧
    (get_most_similar_word sim threshold (some w) vocabulary = Option.none ↔
        vocabulary = [] ∨ ∀ c ∈ vocabulary, sim w c ≤ (threshold : ℚ)) := by
  cases hx : extractOne (sim w) vocabulary with
  | none =>
    have hg : get_most_similar_word sim threshold (some w) vocabulary = Option.none := by
      simp [get_most_similar_word, hx]
    rw [hg]
    have hv : vocabulary = [] := extractOne_eq_none.mp hx
    subst hv
    exact ⟨fun b hb => by simp at hb, by simp⟩
  | some p =>
    obtain ⟨b0, s0⟩ := p
    obtain ⟨hs0, hmem, hall⟩ := extractOne_sound hx
    subst hs0
    by_cases hθ : (threshold : ℚ) < sim w b0
    · have hg : get_most_similar_word sim threshold (some w) vocabulary = some b0 := by
        simp [get_most_similar_word, hx, hθ]
      rw [hg]
      refine ⟨?_, ?_⟩
      · intro b hb
        obtain hb := Option.some.inj hb
        subst hb
        exact ⟨hmem, hθ, hall⟩
      · refine iff_of_false (by simp) ?_
        rintro (h1 | h2)
        · subst h1; simp at hmem
        · exact absurd hθ (not_lt.mpr (h2 b0 hmem))
    · have hg : get_most_similar_word sim threshold (some w) vocabulary = Option.none := by
        simp [get_most_similar_word, hx, hθ]
      rw [hg]
      refine ⟨fun b hb => by simp at hb, ?_⟩
      exact iff_of_true rfl (Or.inr fun c hc => (hall c hc).trans (not_lt.mp hθ))

/-- Witness for C3: the matcher applied to a concrete scorer, threshold 70
and the vocabulary from the spec example. -/
theorem get_most_similar_word_spec_witness :
    "Kyiv" ∈ ["Kyiv", "Lviv"] ∧
      ((70 : ℤ) : ℚ) < (fun _ c => if c = "Kyiv" then (80 : ℚ) else 0) "Kyyiv" "Kyiv" ∧
      ∀ c ∈ ["Kyiv", "Lviv"],
        (fun _ c => if c = "Kyiv" then (80 : ℚ) else 0) "Kyyiv" c ≤
          (fun _ c => if c = "Kyiv" then (80 : ℚ) else 0) "Kyyiv" "Kyiv" :=
  (get_most_similar_word_spec (fun _ c => if c = "Kyiv" then (80 : ℚ) else 0) 70
    "Kyyiv" ["Kyiv", "Lviv"]).1 "Kyiv" (by rfl)

/-! ## C2 — completeness scorer -/

theorem natRoundHalfEven_le (a b : ℕ) (hb : b ≠ 0) (h : a ≤ 100 * b) :
    natRoundHalfEven a b ≤ 100 := by
  have hbpos : 0 < b := Nat.pos_of_ne_zero hb
  have hq : a / b ≤ 100 := by
    calc a / b ≤ 100 * b / b := Nat.div_le_div_right h
    _ = 100 := Nat.mul_div_cancel 100 hbpos
  unfold natRoundHalfEven
  by_cases h1 : 2 * (a % b) < b
  · rw [if_pos h1]; exact hq
  · have hr : 0 < a % b := by omega
    have hlt : a < 100 * b := by
      rcases Nat.lt_or_ge a (100 * b) with h2 | h2
      · exact h2
      · have heq : a = 100 * b := le_antisymm h h2
        have hmod : 100 * b % b = 0 := Nat.mul_mod_left 100 b
        rw [heq, hmod] at hr
        exact absurd hr (lt_irrefl 0)
    have hq99 : a / b < 100 := (Nat.div_lt_iff_lt_mul hbpos).mpr hlt
    rw [if_neg h1]
    by_cases h2 : b < 2 * (a % b)
    · rw [if_pos h2]; omega
    · rw [if_neg h2]
      by_cases h3 : a / b % 2 = 0
      · rw [if_pos h3]; exact hq
      · rw [if_neg h3]; omega

theorem natRoundHalfEven_eq_pyRound (a b : ℕ) (hb : b ≠ 0) :
    (natRoundHalfEven a b : ℤ) = pyRound ((a : ℚ) / (b : ℚ)) := by
  have hbpos : 0 < b := Nat.pos_of_ne_zero hb
  have hbq : (0 : ℚ) < (b : ℚ) := by exact_mod_cast hbpos
  have hbq0 : (b : ℚ) ≠ 0 := ne_of_gt hbq
  have hfloor : ⌊(a : ℚ) / (b : ℚ)⌋ = ((a / b : ℕ) : ℤ) := by
    rw [Rat.floor_natCast_div_natCast a b]
    exact (Int.natCast_div a b).symm
  have hkey : ((a : ℚ)) = (b : ℚ) * ((a / b : ℕ) : ℚ) + ((a % b : ℕ) : ℚ) := by
    exact_mod_cast (Nat.div_add_mod a b).symm
  have hfract : Int.fract ((a : ℚ) / (b : ℚ)) = ((a % b : ℕ) : ℚ) / (b : ℚ) := by
    rw [Int.fract, hfloor, Int.cast_natCast]
    field_simp
    linear_combination hkey
  have hc1 : Int.fract ((a : ℚ) / (b : ℚ)) < 1 / 2 ↔ 2 * (a % b) < b := by
    rw [hfract, div_lt_div_iff₀ hbq (by norm_num : (0 : ℚ) < 2), one_mul]
    constructor
    · intro hx
      have hn : ((a % b) * 2 : ℕ) < b := by exact_mod_cast hx
      omega
    · intro hx
      have hn : ((a % b) * 2 : ℕ) < b := by omega
      exact_mod_cast hn
  have hc2 : 1 / 2 < Int.fract ((a : ℚ) / (b : ℚ)) ↔ b < 2 * (a % b) := by
    rw [hfract, div_lt_div_iff₀ (by norm_num : (0 : ℚ) < 2) hbq, one_mul]
    constructor
    · intro hx
      have hn : b < ((a % b) * 2 : ℕ) := by exact_mod_cast hx
      omega
    · intro hx
      have hn : b < ((a % b) * 2 : ℕ) := by omega
      exact_mod_cast hn
  have hc3 : 2 ∣ ⌊(a : ℚ) / (b : ℚ)⌋ ↔ a / b % 2 = 0 := by
    rw [hfloor]
    constructor
    · intro hx
      have hn : 2 ∣ a / b := by exact_mod_cast hx
      exact Nat.dvd_iff_mod_eq_zero.mp hn
    · intro hx
      have hn : 2 ∣ a / b := Nat.dvd_iff_mod_eq_zero.mpr hx
      exact_mod_cast hn
  unfold natRoundHalfEven pyRound
  by_cases h1 : 2 * (a % b) < b
  · rw [if_pos h1, if_pos (hc1.mpr h1), hfloor]
  · rw [if_neg h1, if_neg (fun hx => h1 (hc1.mp hx))]
    by_cases h2 : b < 2 * (a % b)
    · rw [if_pos h2, if_pos (hc2.mpr h2), hfloor]
      push_cast
      ring
    · rw [if_neg h2, if_neg (fun hx => h2 (hc2.mp hx))]
      by_cases h3 : a / b % 2 = 0
      · rw [if_pos h3, if_pos (hc3.mpr h3), hfloor]
      · rw [if_neg h3, if_neg (fun hx => h3 (hc3.mp hx)), hfloor]
        push_cast
        ring

theorem fillingPercentage_range (stopWords tokens : List String) :
    0 ≤ fillingPercentage stopWords tokens ∧
      fillingPercentage stopWords tokens ≤ 100 := by
  by_cases h0 : tokens.length = 0
  · constructor <;> simp [fillingPercentage, h0]
  · have hm : (meaningfulWords stopWords tokens).length ≤ tokens.length :=
      List.length_filter_le _ tokens
    have hle : 100 * (meaningfulWords stopWords tokens).length ≤ 100 * tokens.length :=
      Nat.mul_le_mul_left 100 hm
    constructor
    · simp only [fillingPercentage, if_neg h0]
      exact_mod_cast Nat.zero_le _
    · simp only [fillingPercentage, if_neg h0]
      exact_mod_cast natRoundHalfEven_le _ _ h0 hle

/-- C2: the completeness score is `round(100 × meaningful / total)` with
Python `round` semantics (round half to even on the exact value), is `0`
for an empty token list, and always lies in `[0, 100]`. -/
theorem fillingPercentage_spec (stopWords tokens : List String) :
    0 ≤ fillingPercentage stopWords tokens ∧
    fillingPercentage stopWords tokens ≤ 100 ∧
    (tokens.length = 0 → fillingPercentage stopWords tokens = 0) ∧
    (tokens.length ≠ 0 →
      fillingPercentage stopWords tokens =
        pyRound (100 * ((meaningfulWords stopWords tokens).length : ℚ) /
          (tokens.length : ℚ))) := by
  refine ⟨(fillingPercentage_range stopWords tokens).1,
    (fillingPercentage_range stopWords tokens).2, fun h0 => ?_, fun h0 => ?_⟩
  · simp [fillingPercentage, h0]
  · simp only [fillingPercentage, if_neg h0]
    rw [natRoundHalfEven_eq_pyRound _ _ h0]
    congr 1
    push_cast
    ring

/-- Witness for C2 at the concrete token list `["the", "cat"]` with stop
word `"the"`: one meaningful token out of two. -/
theorem fillingPercentage_spec_witness :
    (["the", "cat"] : List String).length ≠ 0 ∧
      fillingPercentage ["the"] ["the", "cat"] =
        pyRound (100 * ((meaningfulWords ["the"] ["the", "cat"]).length : ℚ) /
          ((["the", "cat"] : List String).length : ℚ)) :=
  ⟨by decide, (fillingPercentage_spec ["the"] ["the", "cat"]).2.2.2 (by decide)⟩

/-! ## C4 — page enumeration of the document-scraping adapter -/

theorem mem_pyRange_two (a b m : ℕ) :
    m ∈ WorkUa.pyRange a b 2 ↔ a ≤ m ∧ m < b ∧ m % 2 = a % 2 := by
  unfold WorkUa.pyRange
  rw [List.mem_range']
  constructor
  · rintro ⟨i, hi, rfl⟩
    omega
  · rintro ⟨h1, h2, h3⟩
    exact ⟨(m - a) / 2, by omega, by omega⟩

theorem nodup_pyRange_two (a b : ℕ) : (WorkUa.pyRange a b 2).Nodup := by
  unfold WorkUa.pyRange
  exact List.nodup_range' _ _ 2

/-- C4: for every positive candidate count, the page count is
`ceil(n / 14)` and the page numbers fetched by `get_resume_pages` — page 1
first, then the even pages, then the odd pages — form a permutation of
`1, ..., total_pages`, covering every page exactly once. -/
theorem get_resume_pages_spec (n : ℕ) (h : 0 < n) :
    ((WorkUa.totalPages n : ℤ) = ⌈(n : ℚ) / 14⌉) ∧
    (WorkUa.fetchedPages n).head? = some 1 ∧
    (WorkUa.fetchedPages n).Perm (List.range' 1 (WorkUa.totalPages n)) := by
  have h14 : (0 : ℚ) < 14 := by norm_num
  refine ⟨?_, rfl, ?_⟩
  · rw [eq_comm, Int.ceil_eq_iff]
    constructor
    · rw [lt_div_iff₀ h14]
      have hz : (((WorkUa.totalPages n : ℕ) : ℤ) - 1) * 14 < (n : ℤ) := by
        unfold WorkUa.totalPages
        omega
      exact_mod_cast hz
    · rw [div_le_iff₀ h14]
      have hz : (n : ℤ) ≤ ((WorkUa.totalPages n : ℕ) : ℤ) * 14 := by
        unfold WorkUa.totalPages
        omega
      exact_mod_cast hz
  · have htp : 1 ≤ WorkUa.totalPages n := by
      unfold WorkUa.totalPages
      omega
    simp only [WorkUa.fetchedPages]
    refine (List.perm_ext_iff_of_nodup ?_ (List.nodup_range' 1 _)).mpr ?_
    · refine List.nodup_cons.mpr ⟨?_, List.nodup_append.mpr
        ⟨nodup_pyRange_two _ _, nodup_pyRange_two _ _, ?_⟩⟩
      · intro hm
        rcases List.mem_append.mp hm with hh | hh <;>
          rw [mem_pyRange_two] at hh <;> omega
      · intro x hx hy
        rw [mem_pyRange_two] at hx
        rw [mem_pyRange_two] at hy
        omega
    · intro m
      simp only [List.mem_cons, List.mem_append, mem_pyRange_two, List.mem_range'_1]
      omega

/-- Witness for C4 at a concrete candidate count of 30 (three pages). -/
theorem get_resume_pages_spec_witness :
    0 < 30 ∧
      (((WorkUa.totalPages 30 : ℕ) : ℤ) = ⌈((30 : ℕ) : ℚ) / 14⌉) ∧
      (WorkUa.fetchedPages 30).head? = some 1 ∧
      (WorkUa.fetchedPages 30).Perm (List.range' 1 (WorkUa.totalPages 30)) :=
  ⟨by decide, get_resume_pages_spec 30 (by decide)⟩

/-! ## C1 — aggregation and ranking -/

theorem descLe_trans : ∀ a b c : Resume, descLe a b = true → descLe b c = true →
    descLe a c = true := by
  intro a b c hab hbc
  simp only [descLe, decide_eq_true_eq] at hab hbc ⊢
  exact hbc.trans hab

theorem descLe_total : ∀ a b : Resume, (descLe a b || descLe b a) = true := by
  intro a b
  simp only [descLe, Bool.or_eq_true, decide_eq_true_eq]
  exact le_total b.filling_percentage a.filling_percentage

theorem mergeSort_filter_fp (l : List Resume) (v : ℤ) :
    (l.mergeSort descLe).filter (fun r => decide (r.filling_percentage = v)) =
      l.filter (fun r => decide (r.filling_percentage = v)) := by
  have hsub : (l.filter (fun r => decide (r.filling_percentage = v))).Sublist l :=
    List.filter_sublist l
  have hpair : (l.filter (fun r => decide (r.filling_percentage = v))).Pairwise
      (fun a b => descLe a b = true) := by
    apply List.pairwise_of_forall_mem_list
    intro a ha b hb
    have hav := (List.mem_filter.mp ha).2
    have hbv := (List.mem_filter.mp hb).2
    simp only [decide_eq_true_eq] at hav hbv
    simp [descLe, hav, hbv]
  have hstable : (l.filter (fun r => decide (r.filling_percentage = v))).Sublist
      (l.mergeSort descLe) :=
    List.sublist_mergeSort descLe_trans descLe_total hpair hsub
  have hidem : (l.filter (fun r => decide (r.filling_percentage = v))).filter
      (fun r => decide (r.filling_percentage = v)) =
      l.filter (fun r => decide (r.filling_percentage = v)) := by
    rw [List.filter_filter]
    simp
  have hsub2 : (l.filter (fun r => decide (r.filling_percentage = v))).Sublist
      ((l.mergeSort descLe).filter (fun r => decide (r.filling_percentage = v))) := by
    have hf := List.Sublist.filter (fun r => decide (r.filling_percentage = v)) hstable
    rwa [hidem] at hf
  have hperm : ((l.mergeSort descLe).filter
        (fun r => decide (r.filling_percentage = v))).Perm
      (l.filter (fun r => decide (r.filling_percentage = v))) :=
    (List.mergeSort_perm l descLe).filter _
  exact (hsub2.eq_of_length hperm.length_eq.symm).symm

/-- C1: ranking concatenates the per-source lists, stably sorts descending
by `filling_percentage` (records with equal score keep their
post-concatenation relative order), and returns the first `top_n` records:
the output has length `min top_n total`, is sorted descending, is a
sub-permutation of the input (every record present in the input, no
duplication), and the caller applies this with `top_n = 5`. -/
theorem rank_spec (sources : List (List Resume)) (top_n : ℕ) :
    (rank sources top_n).length = min top_n sources.flatten.length ∧
    (rank sources top_n).Pairwise
      (fun a b => b.filling_percentage ≤ a.filling_percentage) ∧
    (rank sources top_n).Subperm sources.flatten ∧
    (∀ v : ℤ,
      (rank sources top_n).filter (fun r => decide (r.filling_percentage = v)) <+:
        sources.flatten.filter (fun r => decide (r.filling_percentage = v))) ∧
    (∀ w r, caller_search_resumes (.ok w) (.ok r) = .ok (rank [w, r] 5)) := by
  refine ⟨?_, ?_, ?_, ?_, fun w r => rfl⟩
  · rw [rank, List.length_take, (List.mergeSort_perm sources.flatten descLe).length_eq]
  · have hs := List.sorted_mergeSort descLe_trans descLe_total sources.flatten
    have hp := hs.sublist (List.take_sublist top_n _)
    exact hp.imp fun hab => by
      simpa only [descLe, decide_eq_true_eq] using hab
  · exact ((List.take_sublist top_n _).subperm).trans
      (List.mergeSort_perm sources.flatten descLe).subperm
  · intro v
    have h1 := List.IsPrefix.filter (fun r => decide (r.filling_percentage = v))
      ( List.take_prefix top_n (sources.flatten.mergeSort descLe))
    rw [mergeSort_filter_fp] at h1
    exact h1

/-! ## Helper lemmas on the exception monad and the parse shape -/

theorem except_pure {ε α : Type} (a : α) : (pure a : Except ε α) = .ok a := rfl

theorem except_bind_ok {ε α β : Type} (a : α) (k : α → Except ε β) :
    (Except.ok a : Except ε α) >>= k = k a := rfl

theorem except_bind_error {ε α β : Type} (e : ε) (k : α → Except ε β) :
    (Except.error e : Except ε α) >>= k = Except.error e := rfl

theorem except_map_ok {ε α β : Type} (g : α → β) (a : α) :
    (g <$> (Except.ok a : Except ε α)) = Except.ok (g a) := rfl

theorem except_map_error {ε α β : Type} (g : α → β) (e : ε) :
    (g <$> (Except.error e : Except ε α)) = Except.error e := rfl

theorem jsonGet_some {α : Type} (x : α) (k : String) :
    jsonGet (some x) k = .ok x := rfl

theorem jsonGet_none {α : Type} (k : String) :
    jsonGet (Option.none : Option α) k = .error ("KeyError: " ++ k) := rfl

theorem mapM_ok_mem {α β : Type} {f : α → Except String β} :
    ∀ {l : List α} {out : List β}, l.mapM f = .ok out →
      ∀ y ∈ out, ∃ x ∈ l, f x = .ok y := by
  intro l
  induction l with
  | nil =>
    intro out h y hy
    rw [List.mapM_nil, except_pure] at h
    obtain rfl : ([] : List β) = out := by simpa using h
    simp at hy
  | cons a as ih =>
    intro out h y hy
    rw [List.mapM_cons] at h
    cases hfa : f a with
    | error e =>
      rw [hfa, except_bind_error] at h
      exact absurd h (by simp)
    | ok b =>
      rw [hfa, except_bind_ok] at h
      cases hrest : as.mapM f with
      | error e =>
        rw [hrest, except_bind_error] at h
        exact absurd h (by simp)
      | ok bs =>
        rw [hrest, except_bind_ok, except_pure] at h
        obtain rfl : b :: bs = out := by simpa using h
        rcases List.mem_cons.mp hy with h1 | h2
        · exact ⟨a, by simp, by rw [hfa, h1]⟩
        · obtain ⟨x, hx, hfx⟩ := ih hrest y h2
          exact ⟨x, List.mem_cons_of_mem a hx, hfx⟩

theorem afterLast_eq_none_iff (pat : List Char) :
    ∀ l : List Char, afterLast pat l = Option.none ↔ containsSub pat l = false := by
  intro l
  induction l with
  | nil =>
    simp only [afterLast, containsSub]
    by_cases hp : pat.isEmpty <;> simp [hp]
  | cons c cs ih =>
    simp only [afterLast, containsSub]
    cases hal : afterLast pat cs with
    | some suf =>
      have hcs : containsSub pat cs = true := by
        rcases Bool.eq_false_or_eq_true (containsSub pat cs) with ht | hf
        · exact ht
        · exact absurd (ih.mpr hf) (by simp [hal])
      simp [hcs]
    | none =>
      have hcs : containsSub pat cs = false := ih.mp hal
      by_cases hpre : pat.isPrefixOf (c :: cs) <;> simp [hpre, hcs]

theorem extractSalary_ok_none_of_no_marker (dm : Option String)
    (h : ∀ c, dm = some c → containsSub WorkUa.salaryMarker c.data = false) :
    WorkUa.extractSalary dm = .ok Option.none := by
  cases dm with
  | none => rfl
  | some c =>
    have hc := h c rfl
    have hal : afterLast WorkUa.salaryMarker c.data = Option.none :=
      (afterLast_eq_none_iff _ _).mpr hc
    simp [WorkUa.extractSalary, hal]

theorem extractSalary_marker_found {c : String}
    (h : containsSub WorkUa.salaryMarker c.data = true) :
    WorkUa.extractSalary (some c) ≠ .ok Option.none := by
  intro hcontra
  cases hal : afterLast WorkUa.salaryMarker c.data with
  | none =>
    have hfalse := (afterLast_eq_none_iff _ _).mp hal
    rw [h] at hfalse
    exact Bool.noConfusion hfalse
  | some part =>
    cases hft : firstToken part with
    | none => simp [WorkUa.extractSalary, hal, hft] at hcontra
    | some tok => simp [WorkUa.extractSalary, hal, hft] at hcontra

theorem parse_resume_ok_iff (stopWords : List String) (doc : WorkUa.ResumeDoc)
    (p : WorkUa.ParsedResume) :
    WorkUa.parse_resume stopWords doc = .ok p ↔
      ∃ sal, WorkUa.extractSalary doc.descriptionMeta = .ok sal ∧
        p = ⟨"", sal, WorkUa.parseExperience doc.workExperience,
          fillingPercentage stopWords doc.tokens⟩ := by
  constructor
  · intro h
    simp only [WorkUa.parse_resume] at h
    cases hsal : WorkUa.extractSalary doc.descriptionMeta with
    | error e =>
      rw [hsal, except_bind_error] at h
      exact absurd h (by simp)
    | ok sal =>
      rw [hsal, except_bind_ok, except_pure] at h
      refine ⟨sal, rfl, ?_⟩
      simpa using h.symm
  · rintro ⟨sal, hsal, rfl⟩
    simp only [WorkUa.parse_resume]
    rw [hsal, except_bind_ok, except_pure]

/-! ## C5 — the filling_percentage invariant -/

/-- C5 counterexample: the API adapter constructs a record whose
`filling_percentage` is `101` (outside `[0, 100]`) when the structured
response carries that value, because `unpack_resume_from_response` passes
`fillingPercentage` through unvalidated. -/
theorem unpack_resume_filling_out_of_range :
    RobotaUa.unpack_resume_from_response
        ⟨some "1", some "5000", some [], some 101⟩ =
      .ok ⟨"https://robota.ua/candidates/1", some "5000", some [], 101⟩ ∧
    ¬(101 : ℤ) ≤ 100 :=
  ⟨rfl, by decide⟩

/-- C5 (amended): every record of the document-scraping search path has
`filling_percentage` in `[0, 100]`; a record unpacked from the API
response carries exactly the response's `fillingPercentage` value, so it
is in range iff that value is. -/
theorem filling_percentage_invariant (stopWords : List String) :
    (∀ (base : String) (fetch : String → Option WorkUa.ResumeDoc)
        (pages : List (List String)) (resumes : List Resume),
        WorkUa.search_resumes base stopWords fetch pages = .ok resumes →
          ∀ rec ∈ resumes,
            0 ≤ rec.filling_percentage ∧ rec.filling_percentage ≤ 100) ∧
    (∀ (r : RobotaUa.ApiResume) (rec : Resume),
        RobotaUa.unpack_resume_from_response r = .ok rec →
          r.fillingPercentage = some rec.filling_percentage) := by
  constructor
  · intro base fetch pages resumes h rec hrec
    simp only [WorkUa.search_resumes] at h
    obtain ⟨dh, _, hdh⟩ := mapM_ok_mem h rec hrec
    cases hp : WorkUa.parse_resume stopWords dh.1 with
    | error e =>
      rw [hp, except_bind_error] at hdh
      exact absurd hdh (by simp)
    | ok p =>
      rw [hp, except_bind_ok, except_pure] at hdh
      obtain rfl : WorkUa.resumeFromParsed (base ++ dh.2) p = rec := by simpa using hdh
      obtain ⟨sal, _, rfl⟩ := (parse_resume_ok_iff stopWords dh.1 p).mp hp
      exact fillingPercentage_range stopWords dh.1.tokens
  · intro r rec h
    obtain ⟨rid, sal, exps, fp⟩ := r
    simp only [RobotaUa.unpack_resume_from_response] at h
    cases rid with
    | none =>
      simp [jsonGet_none, jsonGet_some, except_bind_error, except_bind_ok,
        except_map_error, except_map_ok] at h
    | some rid =>
    cases sal with
    | none =>
      simp [jsonGet_none, jsonGet_some, except_bind_error, except_bind_ok,
        except_map_error, except_map_ok] at h
    | some sal =>
    cases exps with
    | none =>
      simp [jsonGet_none, jsonGet_some, except_bind_error, except_bind_ok,
        except_map_error, except_map_ok] at h
    | some exps =>
    cases fp with
    | none =>
      simp only [jsonGet_none, jsonGet_some, except_bind_error, except_bind_ok,
        except_map_error, except_map_ok] at h
      cases hml : exps.mapM RobotaUa.unpackExperienceEntry with
      | error e => rw [hml, except_bind_error] at h; exact absurd h (by simp)
      | ok entries => rw [hml, except_bind_ok] at h; exact absurd h (by simp)
    | some fpv =>
    simp only [jsonGet_none, jsonGet_some, except_bind_error, except_bind_ok,
      except_map_error, except_map_ok] at h
    cases hml : exps.mapM RobotaUa.unpackExperienceEntry with
    | error e => rw [hml, except_bind_error] at h; exact absurd h (by simp)
    | ok entries =>
      rw [hml, except_bind_ok, except_pure] at h
      injection h with h2
      subst h2
      rfl

/-- Witness for C5 (amended): the API conjunct applied to a concrete
in-range response, and the scraping conjunct applied to a one-record
search. -/
theorem filling_percentage_invariant_witness :
    ((⟨some "1", some "4000", some [], some 87⟩ :
        RobotaUa.ApiResume).fillingPercentage = some (87 : ℤ)) ∧
      (0 ≤ (100 : ℤ) ∧ (100 : ℤ) ≤ 100) :=
  ⟨(filling_percentage_invariant []).2
      ⟨some "1", some "4000", some [], some 87⟩
      ⟨"https://robota.ua/candidates/1", some "4000", some [], 87⟩ (by rfl),
    (filling_percentage_invariant []).1 "https://www.work.ua"
      (fun _ => some ⟨Option.none, Option.none, ["python", "sql"]⟩) [["/r/1/"]]
      [⟨"https://www.work.ua/r/1/", some "", some [], 100⟩]
      (by rfl)
      ⟨"https://www.work.ua/r/1/", some "", some [], 100⟩ (by decide)⟩

/-! ## C6 — tolerance of missing optional fields -/

/-- C6 counterexample: a structured API resume whose optional `salary`
member is absent makes `unpack_resume_from_response` raise `KeyError`
instead of defaulting the field, and no record is produced. -/
theorem unpack_resume_missing_salary_raises :
    RobotaUa.unpack_resume_from_response
        ⟨some "1", Option.none, some [], some 50⟩ =
      .error "KeyError: salary" := rfl

/-- C6 (amended): the document-scraping adapter maps absent optional
fields to their defaults without raising — an absent description meta (or
one without the salary marker) leaves the salary fields defaulted, an
absent "Work experience" heading yields an empty experience list, and an
absent details tag merely skips that entry — while the API adapter raises
`KeyError` when the `salary` member is missing, so the record is dropped
with an error rather than defaulted. -/
theorem missing_optional_field_handling (stopWords : List String) :
    (∀ doc : WorkUa.ResumeDoc,
        (∀ c, doc.descriptionMeta = some c →
            containsSub WorkUa.salaryMarker c.data = false) →
          WorkUa.parse_resume stopWords doc =
            .ok ⟨"", Option.none, WorkUa.parseExperience doc.workExperience,
              fillingPercentage stopWords doc.tokens⟩) ∧
    (∀ doc : WorkUa.ResumeDoc, doc.workExperience = Option.none →
        ∀ p, WorkUa.parse_resume stopWords doc = .ok p → p.experience = []) ∧
    (∀ blocks : List WorkUa.PositionBlock,
        (∀ block ∈ blocks, block.detailsTag = Option.none) →
          WorkUa.parseExperience (some blocks) = []) ∧
    (∀ r : RobotaUa.ApiResume, ∀ rid, r.resumeId = some rid →
        r.salary = Option.none →
          RobotaUa.unpack_resume_from_response r = .error "KeyError: salary") := by
  refine ⟨?_, ?_, ?_, ?_⟩
  · intro doc hnm
    rw [(parse_resume_ok_iff stopWords doc _)]
    exact ⟨Option.none, extractSalary_ok_none_of_no_marker doc.descriptionMeta hnm, rfl⟩
  · intro doc hwe p hp
    obtain ⟨sal, _, rfl⟩ := (parse_resume_ok_iff stopWords doc p).mp hp
    simp [WorkUa.parseExperience, hwe]
  · intro blocks hall
    simp only [WorkUa.parseExperience]
    rw [List.filterMap_eq_nil_iff]
    intro block hb
    rw [hall block hb]
  · intro r rid hrid hsal
    obtain ⟨rid0, sal0, exps0, fp0⟩ := r
    obtain rfl : sal0 = Option.none := hsal
    obtain rfl : rid0 = some rid := hrid
    rfl

/-- Witness for C6 (amended) at a concrete document with no salary marker,
no experience heading, and two tokens, and at a concrete API response with
a missing salary member. -/
theorem missing_optional_field_handling_witness :
    WorkUa.parse_resume [] ⟨Option.none, Option.none, ["python", "sql"]⟩ =
        .ok ⟨"", Option.none, WorkUa.parseExperience Option.none,
          fillingPercentage [] ["python", "sql"]⟩ ∧
      RobotaUa.unpack_resume_from_response ⟨some "7", Option.none, some [], some 40⟩ =
        .error "KeyError: salary" :=
  ⟨(missing_optional_field_handling []).1 ⟨Option.none, Option.none, ["python", "sql"]⟩
      (fun _ hc => Option.noConfusion hc),
    (missing_optional_field_handling []).2.2.2
      ⟨some "7", Option.none, some [], some 40⟩ "7" rfl rfl⟩

/-! ## C7 — unresolved region and experience terms -/

/-- C7 counterexample: with a vocabulary the matcher cannot resolve the
region against, the work.ua adapter still builds the payload but stores a
`None` placeholder under the `"region"` key instead of omitting the key. -/
theorem unpack_search_options_null_region_key :
    WorkUa.unpack_search_options [("Kyiv", 1)] [] [] [] (fun _ _ => 0) 70
        ⟨"dev", some "Zzz", Option.none, Option.none, Option.none⟩ =
      .ok [("search", PyVal.str "dev"), ("region", PyVal.none)] ∧
    ("region", PyVal.none) ∈
      [("search", PyVal.str "dev"), ("region", PyVal.none)] :=
  ⟨rfl, by decide⟩

/-- C7 (amended): when the fuzzy matcher resolves no region, each adapter
still builds its request, but writes a null placeholder under the region
key (work.ua `"region"`, robota.ua `"cityId"`) rather than omitting it;
the robota.ua adapter omits experience tags its vocabulary cannot resolve,
while the work.ua adapter resolves experience tags by direct dict lookup,
which raises `KeyError` for an unknown tag. -/
theorem unresolved_term_handling (REGIONS : List (String × ℤ))
    (SF ST : List (String × ℤ)) (EO : List (String × String))
    (EOR : List (String × ℤ)) (sim : String → String → ℚ) (threshold : ℤ) :
    (∀ search region, region.isEmpty = false →
        get_most_similar_word sim threshold (some region) (REGIONS.map Prod.fst) =
          Option.none →
        WorkUa.unpack_search_options REGIONS SF ST EO sim threshold
            ⟨search, some region, Option.none, Option.none, Option.none⟩ =
          .ok [("search", PyVal.str search), ("region", PyVal.none)]) ∧
    (∀ search region sf st,
        get_most_similar_word sim threshold region (REGIONS.map Prod.fst) =
          Option.none →
        RobotaUa.unpack_search_options REGIONS EOR sim threshold
            ⟨search, region, sf, st, some []⟩ =
          .ok ⟨Option.none, search, sf, st, []⟩) ∧
    (∀ search tags, (∀ t ∈ tags, EOR.lookup t = Option.none) →
        tags.contains "More than 5 years" = false →
        RobotaUa.unpack_search_options [] EOR sim threshold
            ⟨search, Option.none, Option.none, Option.none, some tags⟩ =
          .ok ⟨Option.none, search, Option.none, Option.none, []⟩) ∧
    (∀ search tag, EO.lookup tag = Option.none →
        WorkUa.unpack_search_options REGIONS SF ST EO sim threshold
            ⟨search, Option.none, Option.none, Option.none, some [tag]⟩ =
          .error ("KeyError: " ++ tag)) := by
  refine ⟨?_, ?_, ?_, ?_⟩
  · intro search region hreg hmatch
    simp [WorkUa.unpack_search_options, optStrTruthy, optIntTruthy, optListTruthy,
      hreg, hmatch, except_pure, except_bind_ok]
  · intro search region sf st hmatch
    simp [RobotaUa.unpack_search_options, hmatch, except_pure, except_bind_ok]
  · intro search tags hlk hmore
    have hnotmem : "More than 5 years" ∉ tags := by simpa using hmore
    simp [RobotaUa.unpack_search_options, get_most_similar_word, extractOne,
      hnotmem, except_pure, except_bind_ok, List.filterMap_eq_nil_iff]
    intro t ht
    rw [hlk t ht]
  · intro search tag hlk
    simp [WorkUa.unpack_search_options, optStrTruthy, optIntTruthy, optListTruthy,
      List.mapM.loop, dictGet, hlk, except_pure, except_bind_ok, except_bind_error,
      except_map_error]

/-- Witness for C7 (amended): the work.ua conjunct applied at a concrete
unresolvable region with a constant-zero scorer. -/
theorem unresolved_term_handling_witness :
    WorkUa.unpack_search_options [("Kyiv", 1), ("Lviv", 2)] [] [] []
        (fun _ _ => 0) 70
        ⟨"qa engineer", some "Atlantis", Option.none, Option.none, Option.none⟩ =
      .ok [("search", PyVal.str "qa engineer"), ("region", PyVal.none)] :=
  (unresolved_term_handling [("Kyiv", 1), ("Lviv", 2)] [] [] [] []
    (fun _ _ => 0) 70).1 "qa engineer" "Atlantis" (by rfl) (by rfl)

/-! ## C8 — partial failure of one adapter -/

/-- C8 counterexample: the bot caller has no handler around the adapter
calls, so when the work.ua adapter raises while the robota.ua adapter
returns a non-empty list, the exception propagates and no ranked list is
returned. -/
theorem caller_drops_surviving_source :
    caller_search_resumes (.error "SourceUnavailable")
        (.ok [⟨"https://robota.ua/candidates/9", some "4000", some [], 55⟩]) =
      .error "SourceUnavailable" ∧
    ([⟨"https://robota.ua/candidates/9", some "4000", some [], 55⟩] :
      List Resume) ≠ [] :=
  ⟨rfl, by decide⟩

/-- C8 (amended): the caller returns the ranked top five only when both
adapters succeed; an exception raised by either adapter propagates out of
`search_resumes` regardless of what the other adapter returned. -/
theorem caller_requires_both_adapters :
    (∀ w r, caller_search_resumes (.ok w) (.ok r) = .ok (rank [w, r] 5)) ∧
    (∀ e x, caller_search_resumes (.error e) x = .error e) ∧
    (∀ w e, caller_search_resumes (.ok w) (.error e) = .error e) :=
  ⟨fun _ _ => rfl, fun _ _ => rfl, fun _ _ => rfl⟩

/-! ## C9 — the typo'd salary dict key -/

/-- C9: the scraping parse path writes the extracted salary under the
dict key `"salary expectation"` (with a space) while the
`"salary_expectation"` key keeps its `""` default, so every pydantic
`Resume` built from this path has `salary_expectation = some ""` even when
the document carries a salary (which ends up under the ignored extra
key). -/
theorem parse_resume_salary_typo_key (stopWords : List String) :
    (∀ doc p, WorkUa.parse_resume stopWords doc = .ok p →
        p.salary_expectation = "" ∧
        ∀ href, (WorkUa.resumeFromParsed href p).salary_expectation = some "") ∧
    (∀ doc (c : String) p, doc.descriptionMeta = some c →
        containsSub WorkUa.salaryMarker c.data = true →
        WorkUa.parse_resume stopWords doc = .ok p →
        p.salary_space_expectation.isSome = true) := by
  constructor
  · intro doc p hp
    obtain ⟨sal, _, rfl⟩ := (parse_resume_ok_iff stopWords doc p).mp hp
    exact ⟨rfl, fun href => rfl⟩
  · intro doc c p hdm hc hp
    obtain ⟨sal, hsal, rfl⟩ := (parse_resume_ok_iff stopWords doc p).mp hp
    rw [hdm] at hsal
    cases sal with
    | none => exact absurd hsal (extractSalary_marker_found hc)
    | some v => rfl

/-- Witness for C9 at a concrete document whose description meta carries a
salary after the marker. -/
theorem parse_resume_salary_typo_key_witness :
    ((⟨"", some "5000", [], 0⟩ : WorkUa.ParsedResume).salary_expectation = "" ∧
      ∀ href, (WorkUa.resumeFromParsed href
        (⟨"", some "5000", [], 0⟩ : WorkUa.ParsedResume)).salary_expectation =
          some "") ∧
    ((⟨"", some "5000", [], 0⟩ :
      WorkUa.ParsedResume).salary_space_expectation.isSome = true) :=
  ⟨(parse_resume_salary_typo_key []).1
      ⟨some "Mind the salary starting at 5000 UAH", Option.none, []⟩
      ⟨"", some "5000", [], 0⟩ (by rfl),
    (parse_resume_salary_typo_key []).2
      ⟨some "Mind the salary starting at 5000 UAH", Option.none, []⟩
      "Mind the salary starting at 5000 UAH" ⟨"", some "5000", [], 0⟩ rfl
      (by rfl) (by rfl)⟩

/-! ## C10 — href alignment in the scraping search -/

/-- C10: when a detail-page fetch fails, the records parsed from the
remaining pages are paired with the leading hrefs of the listing
(`hrefs[i - 1]` for the i-th successfully fetched page), not with the
hrefs their pages came from: here only the page at `"/resumes/2/"` is
fetched and parsed, yet the single returned record carries
`base_url + "/resumes/1/"`. -/
theorem search_resumes_href_misalignment :
    WorkUa.search_resumes "https://www.work.ua" []
        (fun h => if h = "/resumes/2/"
          then some ⟨Option.none, Option.none, ["python"]⟩ else Option.none)
        [["/resumes/1/", "/resumes/2/"]] =
      .ok [⟨"https://www.work.ua/resumes/1/", some "", some [], 100⟩] ∧
    (fun h : String => if h = "/resumes/2/"
        then some (⟨Option.none, Option.none, ["python"]⟩ : WorkUa.ResumeDoc)
        else Option.none) "/resumes/1/" = Option.none :=
  ⟨rfl, rfl⟩

end VacancyScraper
